import Mathlib

/-!
Verification development for the `code-workspaces-cleaner-upper` repository
(`src/main.rs`).  The two core functions, `check_target_dir_date` (the Cutoff
Evaluator) and `scan_for_target_dirs` (the Tree Scanner), are shallowly
embedded below.  Filesystem interactions (directory listings, metadata reads,
symlink resolution, canonicalization, deletion) are modelled as explicit input
data carrying the results the operating system would return, and the functions
mirror the Rust control flow over that data.  `std::process::exit(1)` and a
panic from `.unwrap()` are modelled as distinguished outcomes that abort the
whole computation; `println!` output is accumulated as a list of lines.
-/

set_option maxHeartbeats 1000000

namespace Cleaner

/-- Paths are modelled as plain strings. -/
abbrev Path := String

/-- Error kinds the program distinguishes (`std::io::ErrorKind`):
`ErrorKind::Unsupported` triggers the fatal platform path, every other kind is
an ordinary I/O error. -/
inductive EKind where
  | unsupported
  | other
deriving DecidableEq

/-- An `std::io::Error` as observed by the program: its kind and display text. -/
structure IoErr where
  kind : EKind
  msg : String
deriving DecidableEq

/-- Metadata of one walkdir entry, as the code consumes it: the result of
`metadata.modified()`, `metadata.is_file()` and `metadata.len()`.  Modification
times are modelled as integers (comparison is all the code uses). -/
structure Md where
  modifiedRes : Except IoErr Int
  isFile : Bool
  len : Nat

/-- A `walkdir::Error` returned by `entry.metadata()`: the code inspects
`e.io_error()` (`none` when the error is not an io error) and displays `e`. -/
structure MdErr where
  ioeRes : Option IoErr
  msg : String

/-- One successful walkdir entry: its path and the result of
`entry.metadata()`. -/
structure WOk where
  path : Path
  mdRes : Except MdErr Md

/-- A walkdir iterator error (the `Err` arm of the `for entry in WalkDir` loop). -/
structure WErr where
  msg : String

/-- One item yielded by the `WalkDir::new(dir)` iterator. -/
abbrev WEntry := Except WErr WOk

/-- Outcome of `check_target_dir_date`: `fatalC` models the
`std::process::exit(1)` calls, `noneC` and `someC` model returning `None` and
`Some(total_size)`.  Each constructor carries the lines printed. -/
inductive CheckOut where
  | fatalC : List String → CheckOut
  | noneC : List String → CheckOut
  | someC : Nat → List String → CheckOut
deriving DecidableEq

def modifiedUnsupportedMsg : String :=
  "This platform does not support finding the modification date of files!"

def metadataUnsupportedMsg : String :=
  "This platform does not support finding the metadata date of files!"

def metadataErrMsg (p : Path) (emsg : String) (dir : Path) : String :=
  "Error accessing metadata of file " ++ p ++ ": " ++ emsg ++
    ", skipping cleaning folder " ++ dir

def entryErrMsg (emsg : String) : String :=
  "Error accessing entry in folder: " ++ emsg

/-- The loop body of `check_target_dir_date`, folding over the walkdir entry
stream with the running `total_size` and the lines printed so far.  Mirrors
`src/main.rs` lines 33-78: a walkdir iterator error is printed and skipped; a
metadata error exits the process when its io kind is `Unsupported` and
otherwise prints and returns `None`; a `modified()` error exits the process
when `Unsupported` and is otherwise silently ignored; an entry newer than the
cutoff returns `None`; a regular file adds its length to the total. -/
def checkGo (dir : Path) (cutoff : Int) : Nat → List String → List WEntry → CheckOut
  | size, logs, [] => .someC size logs
  | size, logs, .error we :: rest =>
      checkGo dir cutoff size (logs ++ [entryErrMsg we.msg]) rest
  | size, logs, .ok w :: rest =>
      match w.mdRes with
      | .error me =>
          match me.ioeRes with
          | some ioe =>
              if ioe.kind = .unsupported then .fatalC (logs ++ [metadataUnsupportedMsg])
              else .noneC (logs ++ [metadataErrMsg w.path me.msg dir])
          | none => .noneC (logs ++ [metadataErrMsg w.path me.msg dir])
      | .ok md =>
          match md.modifiedRes with
          | .ok t =>
              if t > cutoff then .noneC logs
              else checkGo dir cutoff (if md.isFile then size + md.len else size) logs rest
          | .error e =>
              if e.kind = .unsupported then .fatalC (logs ++ [modifiedUnsupportedMsg])
              else checkGo dir cutoff (if md.isFile then size + md.len else size) logs rest

/-- The Cutoff Evaluator `check_target_dir_date(dir, cutoff)`, applied to the
walkdir entry stream of `dir`. -/
def check_target_dir_date (dir : Path) (entries : List WEntry) (cutoff : Int) : CheckOut :=
  checkGo dir cutoff 0 [] entries

/-- An error-free filesystem subtree as walkdir sees it with its default
`follow_links = false` setting: a symbolic link node carries the subtree its
target points at, but the walk yields only the link entry itself (with the
link's own symlink metadata) and never descends into the target. -/
inductive FsNode where
  | file : Int → Nat → FsNode
  | dirN : Int → List FsNode → FsNode
  | symlinkN : Int → FsNode → FsNode

mutual

/-- Modelled from the walkdir crate's documented contract with the default
`follow_links = false` used by the code: the walk yields the node itself first,
then its children depth-first; a symlink entry is yielded with its own
(symlink) metadata, whose `is_file()` is false, and its target is not entered. -/
def walkOne : FsNode → List WEntry
  | .file mt sz => [Except.ok ⟨"", Except.ok ⟨Except.ok mt, true, sz⟩⟩]
  | .dirN mt cs => Except.ok ⟨"", Except.ok ⟨Except.ok mt, false, 0⟩⟩ :: walkMany cs
  | .symlinkN mt _ => [Except.ok ⟨"", Except.ok ⟨Except.ok mt, false, 0⟩⟩]

/-- Walkdir entry stream of a list of sibling nodes. -/
def walkMany : List FsNode → List WEntry
  | [] => []
  | t :: ts => walkOne t ++ walkMany ts

end

mutual

/-- Sum of the sizes of the regular files of a subtree; symlink targets are
outside the physical subtree and are excluded. -/
def sumFiles : FsNode → Nat
  | .file _ sz => sz
  | .dirN _ cs => sumFilesMany cs
  | .symlinkN _ _ => 0

/-- Sum of regular-file sizes over sibling nodes. -/
def sumFilesMany : List FsNode → Nat
  | [] => 0
  | t :: ts => sumFiles t + sumFilesMany ts

end

mutual

/-- Spec-side predicate (the claim's wording): no REGULAR FILE in the subtree
has modification time strictly after the cutoff. -/
def regFilesOld (c : Int) : FsNode → Bool
  | .file mt _ => decide (mt ≤ c)
  | .dirN _ cs => regFilesOldMany c cs
  | .symlinkN _ _ => true

/-- Regular-file-only oldness over sibling nodes. -/
def regFilesOldMany (c : Int) : List FsNode → Bool
  | [] => true
  | t :: ts => regFilesOld c t && regFilesOldMany c ts

end

mutual

/-- Every entry of the subtree, of any kind (regular file, directory, or the
symlink entry itself), has modification time at or before the cutoff. -/
def allOld (c : Int) : FsNode → Bool
  | .file mt _ => decide (mt ≤ c)
  | .dirN mt cs => decide (mt ≤ c) && allOldMany c cs
  | .symlinkN mt _ => decide (mt ≤ c)

/-- Oldness of every entry over sibling nodes. -/
def allOldMany (c : Int) : List FsNode → Bool
  | [] => true
  | t :: ts => allOld c t && allOldMany c ts

end

/-- A walk item on which `check_target_dir_date` hits an
`ErrorKind::Unsupported` failure: either `entry.metadata()` fails with an io
error of that kind, or `metadata.modified()` does. -/
def unsupportedItem : WEntry → Bool
  | .error _ => false
  | .ok w =>
      match w.mdRes with
      | .error me =>
          match me.ioeRes with
          | some ioe => decide (ioe.kind = .unsupported)
          | none => false
      | .ok md =>
          match md.modifiedRes with
          | .error e => decide (e.kind = .unsupported)
          | .ok _ => false

/-- The directory names the scanner looks for. -/
def cargoName : String := "Cargo.toml"

/-- The build-output directory name the scanner looks for. -/
def targetName : String := "target"

def scanDirErrMsg (d : Path) (emsg : String) : String :=
  "Error scanning directory " ++ d ++ ": " ++ emsg

def followSymlinkErrMsg (p : Path) (emsg : String) : String :=
  "Error following symlink " ++ p ++ ": " ++ emsg

def symlinkMetaErrMsg (target : Path) (p : Path) (emsg : String) : String :=
  "Error reading metadata of entry " ++ target ++ " behind symlink " ++ p ++ ": " ++ emsg

def resolveErrMsg (p : Path) (emsg : String) : String :=
  "Error resolving path " ++ p ++ ": " ++ emsg

def circularWarnMsg : String := "Warning: circular symlink reference detected:"

def chainLine (p : Path) : String := "\t" ++ p

def deleteErrMsg (t : Path) (emsg : String) : String :=
  "Error deleting target directory " ++ t ++ ": " ++ emsg

/-- The per-eligible-directory report line.  `humansize::format_size` is
external formatting glue; the size is rendered with `toString` here. -/
def deletingMsg (size : Nat) (t : Path) : String :=
  "Deleting " ++ toString size ++ " of files in target directory " ++ t

/-- Mirrors `PathBuf::is_relative` for the string paths of this model. -/
def isRelative (p : Path) : Bool := !(p.startsWith "/")

/-- Mirrors `dir.join(inner)`. -/
def joinPath (a b : Path) : Path := a ++ "/" ++ b

/-- The `symlink_target` computation of `scan_for_target_dirs`: a relative link
target is resolved against the link's containing directory, an absolute one is
used as-is. -/
def resolveLink (dir inner : Path) : Path :=
  if isRelative inner then joinPath dir inner else inner

mutual

/-- The data read back from the filesystem for one directory that
`scan_for_target_dirs` visits: the `read_dir` result, and the results of the
three further filesystem operations the leaf branch can perform on `dir/target`
(its walkdir entry stream for `check_target_dir_date`, the
`fs_extra::dir::get_size` result, and the `std::fs::remove_dir_all` result). -/
inductive DNode : Type where
  | mk : Except IoErr (List REnt) → List WEntry → Except IoErr Nat → Except IoErr Unit → DNode

/-- One item yielded by the `read_dir` iterator, with the results of every
further query the loop body can make on it.  `entErr` is the `Err` arm of the
loop; `ftErr` is an entry whose `entry.file_type()` call fails (the code calls
`.unwrap()` on it); `dirEnt` is a subdirectory (carrying its `canonicalize`
result and its own directory data); `symRlErr` is a symlink whose `read_link`
fails; `symEnt` is a symlink with its link target, the result of
`std::fs::metadata(symlink_target).is_dir()`, its `canonicalize` result, and
the directory data reached through it; `otherEnt` is any other entry.  The
first `Option String` field is `entry.file_name().into_string()`. -/
inductive REnt : Type where
  | entErr : IoErr → REnt
  | ftErr : Option String → Path → IoErr → REnt
  | dirEnt : Option String → Path → Except IoErr Path → DNode → REnt
  | symRlErr : Option String → Path → IoErr → REnt
  | symEnt : Option String → Path → Path → Except IoErr Bool → Except IoErr Path → DNode → REnt
  | otherEnt : Option String → Path → REnt

end

/-- The file name of an entry, when `into_string` succeeded. -/
def entryName : REnt → Option String
  | .entErr _ => none
  | .ftErr n _ _ => n
  | .dirEnt n _ _ _ => n
  | .symRlErr n _ _ => n
  | .symEnt n _ _ _ _ _ => n
  | .otherEnt n _ => n

/-- The `has_cargo_toml` / `has_target_dir` flag update for one entry name
(the `if name == "Cargo.toml" ... else if name == "target"` block). -/
def nameFlags (hasC hasT : Bool) : Option String → Bool × Bool
  | some n =>
      if n = cargoName then (true, hasT)
      else if n = targetName then (hasC, true)
      else (hasC, hasT)
  | none => (hasC, hasT)

/-- Whether some entry of the listing has the given (valid-unicode) name. -/
def hasName (entries : List REnt) (s : String) : Bool :=
  entries.any fun e => decide (entryName e = some s)

/-- State of the `read_dir` enumeration loop on exit: either the process
panicked (on `entry.file_type().unwrap()`), or the loop finished or broke with
the two flags, the lines printed, and the number of entries that got past the
break check (the recursion candidates are drawn from these). -/
inductive P1 where
  | panicSt : List String → P1
  | st : Bool → Bool → List String → Nat → P1
deriving DecidableEq

/-- The `read_dir` enumeration loop of `scan_for_target_dirs` (lines 88-137):
per entry, an iterator error is printed and skipped; the name checks update the
flags and the loop breaks once both are set (only reachable when the name was
valid unicode); then `file_type()` is unwrapped (a failure is a panic);
subdirectories and symlinks are classified, with symlink resolution failures
printed and skipped. -/
def phase1Go (dir : Path) (hasC hasT : Bool) (logs : List String) (k : Nat) :
    List REnt → P1
  | [] => .st hasC hasT logs k
  | .entErr ioe :: rest =>
      phase1Go dir hasC hasT (logs ++ [entryErrMsg ioe.msg]) (k + 1) rest
  | e :: rest =>
      let fl := nameFlags hasC hasT (entryName e)
      if (entryName e).isSome && fl.1 && fl.2 then .st fl.1 fl.2 logs k
      else
        match e with
        | .ftErr _ _ _ => .panicSt logs
        | .symRlErr _ p ioe =>
            phase1Go dir fl.1 fl.2 (logs ++ [followSymlinkErrMsg p ioe.msg]) (k + 1) rest
        | .symEnt _ p inner metaRes _ _ =>
            match metaRes with
            | .error ioe =>
                phase1Go dir fl.1 fl.2
                  (logs ++ [symlinkMetaErrMsg (resolveLink dir inner) p ioe.msg]) (k + 1) rest
            | .ok _ => phase1Go dir fl.1 fl.2 logs (k + 1) rest
        | _ => phase1Go dir fl.1 fl.2 logs (k + 1) rest

/-- First index of a path in the visited stack (the `for i in 0..stack.len()`
search of lines 193-205; the inner `contains` re-check always succeeds there,
so the first hit logs the chain and skips). -/
def firstIdx (c : Path) : List Path → Option Nat
  | [] => none
  | p :: rest => if p = c then some 0 else (firstIdx c rest).map (· + 1)

/-- Decision taken for one recursion candidate before descending (lines
175-205): canonicalization failure is printed and the candidate skipped; a
canonical path already on the visited stack prints the cycle chain from its
first occurrence and skips; otherwise the scanner descends with the canonical
path pushed. -/
inductive CandDecision where
  | skipResolve : String → CandDecision
  | skipCycle : List String → CandDecision
  | descend : Path → CandDecision

def candDecide (stack : List Path) (p : Path) (canonRes : Except IoErr Path) :
    CandDecision :=
  match canonRes with
  | .error ioe => .skipResolve (resolveErrMsg p ioe.msg)
  | .ok c =>
      match firstIdx c stack with
      | some i =>
          .skipCycle ([circularWarnMsg] ++ (stack.drop i).map chainLine ++ [chainLine c])
      | none => .descend c

/-- Result of one `scan_for_target_dirs` call: `panicked` models an
`unwrap` panic, `fatal` models `std::process::exit(1)` reached inside
`check_target_dir_date`, and `done` carries the returned byte total, the lines
printed, the directories removed from disk, and the (path, size) pairs
reported for deletion. -/
inductive Outcome where
  | panicked : List String → Outcome
  | fatal : List String → Outcome
  | done : Nat → List String → List Path → List (Path × Nat) → Outcome
deriving DecidableEq

/-- The reporting/deletion tail of the leaf branch (lines 154-169), entered
with an eligible size: print the report line, delete when authorized (a
deletion failure is printed but the size is still returned). -/
def afterEligible (tp : Path) (size : Nat) (logs : List String) (del : Bool)
    (rm : Except IoErr Unit) : Outcome :=
  if del then
    match rm with
    | .ok _ => .done size (logs ++ [deletingMsg size tp]) [tp] [(tp, size)]
    | .error e =>
        .done size (logs ++ [deletingMsg size tp] ++ [deleteErrMsg tp e.msg]) [] [(tp, size)]
  else .done size (logs ++ [deletingMsg size tp]) [] [(tp, size)]

/-- The project-leaf branch of `scan_for_target_dirs` (lines 141-172), taken
when both flags are set: with a cutoff, delegate to `check_target_dir_date`;
without one, use the direct `fs_extra::dir::get_size` result, whose failure
prints an empty line (the code is `println!("")`) and returns 0. -/
def leafEval (dir : Path) (tWalk : List WEntry) (tSize : Except IoErr Nat)
    (rm : Except IoErr Unit) (cutoff : Option Int) (del : Bool)
    (p1logs : List String) : Outcome :=
  match cutoff with
  | some c =>
      match check_target_dir_date (joinPath dir targetName) tWalk c with
      | .fatalC cl => .fatal (p1logs ++ cl)
      | .noneC cl => .done 0 (p1logs ++ cl) [] []
      | .someC size cl => afterEligible (joinPath dir targetName) size (p1logs ++ cl) del rm
  | none =>
      match tSize with
      | .ok size => afterEligible (joinPath dir targetName) size p1logs del rm
      | .error _ => .done 0 (p1logs ++ [""]) [] []

mutual

/-- The Tree Scanner `scan_for_target_dirs(dir, cutoff, actually_delete,
stack)` (lines 79-212), over the directory data `nd`, returning its outcome
and the final contents of the visited stack. -/
def scanNode (dir : Path) (nd : DNode) (cutoff : Option Int) (del : Bool)
    (stack : List Path) : Outcome × List Path :=
  match nd with
  | .mk listing tWalk tSize rm =>
      match listing with
      | .error ioe => (.done 0 [scanDirErrMsg dir ioe.msg] [] [], stack)
      | .ok entries =>
          match phase1Go dir false false [] 0 entries with
          | .panicSt logs => (.panicked logs, stack)
          | .st hasC hasT logs k =>
              if hasC && hasT then (leafEval dir tWalk tSize rm cutoff del logs, stack)
              else scanCands cutoff del 0 logs [] [] stack k entries

/-- The `for thing in to_check` recursion loop (lines 175-209): the candidates
are the subdirectory and directory-symlink entries among the first `k` items
(those enumerated before the break); each is canonicalized, checked against
the visited stack, and descended into with push/pop around the recursive
call.  A panic or fatal exit inside a recursive call aborts everything. -/
def scanCands (cutoff : Option Int) (del : Bool) (acc : Nat) (logs : List String)
    (deleted : List Path) (reported : List (Path × Nat)) (stack : List Path) :
    Nat → List REnt → Outcome × List Path
  | _, [] => (.done acc logs deleted reported, stack)
  | 0, _ :: _ => (.done acc logs deleted reported, stack)
  | k + 1, .dirEnt _ p canonRes sub :: rest =>
      match candDecide stack p canonRes with
      | .skipResolve lg =>
          scanCands cutoff del acc (logs ++ [lg]) deleted reported stack k rest
      | .skipCycle lgs =>
          scanCands cutoff del acc (logs ++ lgs) deleted reported stack k rest
      | .descend c =>
          match scanNode p sub cutoff del (stack ++ [c]) with
          | (.done b l d r, st2) =>
              scanCands cutoff del (acc + b) (logs ++ l) (deleted ++ d) (reported ++ r)
                st2.dropLast k rest
          | (.panicked il, st2) => (.panicked (logs ++ il), st2)
          | (.fatal il, st2) => (.fatal (logs ++ il), st2)
  | k + 1, .symEnt _ p _ (.ok true) canonRes sub :: rest =>
      match candDecide stack p canonRes with
      | .skipResolve lg =>
          scanCands cutoff del acc (logs ++ [lg]) deleted reported stack k rest
      | .skipCycle lgs =>
          scanCands cutoff del acc (logs ++ lgs) deleted reported stack k rest
      | .descend c =>
          match scanNode p sub cutoff del (stack ++ [c]) with
          | (.done b l d r, st2) =>
              scanCands cutoff del (acc + b) (logs ++ l) (deleted ++ d) (reported ++ r)
                st2.dropLast k rest
          | (.panicked il, st2) => (.panicked (logs ++ il), st2)
          | (.fatal il, st2) => (.fatal (logs ++ il), st2)
  | k + 1, _ :: rest =>
      scanCands cutoff del acc logs deleted reported stack k rest

end

theorem checkGo_append_clean (dir : Path) (cutoff : Int) :
    ∀ (pre : List WEntry) (s : Nat) (l : List String) (s' : Nat) (l' : List String)
      (rest : List WEntry),
      checkGo dir cutoff s l pre = .someC s' l' →
      checkGo dir cutoff s l (pre ++ rest) = checkGo dir cutoff s' l' rest := by
  intro pre
  induction pre with
  | nil =>
      intro s l s' l' rest h
      simp [checkGo] at h
      simp [h.1, h.2]
  | cons e pre ih =>
      intro s l s' l' rest h
      match e with
      | .error we =>
          simp only [checkGo, List.cons_append] at h ⊢
          exact ih _ _ _ _ _ h
      | .ok w =>
          simp only [checkGo, List.cons_append] at h ⊢
          match hmd : w.mdRes with
          | .error me =>
              match hioe : me.ioeRes with
              | some ioe =>
                  simp [hmd, hioe] at h ⊢
                  split at h <;> simp_all
              | none => simp [hmd, hioe] at h
          | .ok md =>
              match hmod : md.modifiedRes with
              | .ok t =>
                  simp only [hmd, hmod] at h ⊢
                  by_cases ht : t > cutoff
                  · simp [ht] at h
                  · simp only [if_neg ht] at h ⊢
                    exact ih _ _ _ _ _ h
              | .error e2 =>
                  simp only [hmd, hmod] at h ⊢
                  by_cases he : e2.kind = EKind.unsupported
                  · simp [he] at h
                  · simp only [if_neg he] at h ⊢
                    exact ih _ _ _ _ _ h

theorem walkMany_append (xs ys : List FsNode) :
    walkMany (xs ++ ys) = walkMany xs ++ walkMany ys := by
  induction xs with
  | nil => simp [walkMany]
  | cons t ts ih => simp [walkMany, ih]

mutual

theorem checkGo_walkOne_clean (d : Path) (c : Int) (t : FsNode)
    (h : allOld c t = true) :
    ∀ (s : Nat) (l : List String) (rest : List WEntry),
      checkGo d c s l (walkOne t ++ rest) = checkGo d c (s + sumFiles t) l rest := by
  intro s l rest
  match t with
  | .file mt sz =>
      simp only [allOld, decide_eq_true_eq] at h
      simp [walkOne, checkGo, sumFiles, not_lt.mpr h]
  | .dirN mt cs =>
      simp only [allOld, Bool.and_eq_true, decide_eq_true_eq] at h
      simp only [walkOne, List.cons_append, checkGo, sumFiles]
      rw [if_neg (not_lt.mpr h.1)]
      simpa using checkGo_walkMany_clean d c cs h.2 s l rest
  | .symlinkN mt t' =>
      simp only [allOld, decide_eq_true_eq] at h
      simp [walkOne, checkGo, sumFiles, not_lt.mpr h]

theorem checkGo_walkMany_clean (d : Path) (c : Int) (ts : List FsNode)
    (h : allOldMany c ts = true) :
    ∀ (s : Nat) (l : List String) (rest : List WEntry),
      checkGo d c s l (walkMany ts ++ rest) = checkGo d c (s + sumFilesMany ts) l rest := by
  intro s l rest
  match ts with
  | [] => simp [walkMany, sumFilesMany]
  | t :: ts' =>
      simp only [allOldMany, Bool.and_eq_true] at h
      simp only [walkMany, List.append_assoc, sumFilesMany]
      rw [checkGo_walkOne_clean d c t h.1 s l (walkMany ts' ++ rest),
        checkGo_walkMany_clean d c ts' h.2 (s + sumFiles t) l rest,
        Nat.add_assoc]

end

mutual

theorem checkGo_walkOne_notOld (d : Path) (c : Int) (t : FsNode)
    (h : allOld c t = false) :
    ∀ (s : Nat) (l : List String) (rest : List WEntry),
      checkGo d c s l (walkOne t ++ rest) = .noneC l := by
  intro s l rest
  match t with
  | .file mt sz =>
      simp only [allOld, decide_eq_false_iff_not, not_le] at h
      simp [walkOne, checkGo, h]
  | .dirN mt cs =>
      simp only [allOld, Bool.and_eq_false_iff] at h
      simp only [walkOne, List.cons_append, checkGo]
      rcases h with h | h
      · simp only [decide_eq_false_iff_not, not_le] at h
        rw [if_pos h]
      · rcases hmt : decide (mt ≤ c) with _ | _
        · simp only [decide_eq_false_iff_not, not_le] at hmt
          rw [if_pos hmt]
        · simp only [decide_eq_true_eq] at hmt
          rw [if_neg (not_lt.mpr hmt)]
          exact checkGo_walkMany_notOld d c cs h s l rest
  | .symlinkN mt t' =>
      simp only [allOld, decide_eq_false_iff_not, not_le] at h
      simp [walkOne, checkGo, h]

theorem checkGo_walkMany_notOld (d : Path) (c : Int) (ts : List FsNode)
    (h : allOldMany c ts = false) :
    ∀ (s : Nat) (l : List String) (rest : List WEntry),
      checkGo d c s l (walkMany ts ++ rest) = .noneC l := by
  intro s l rest
  match ts with
  | [] => simp [allOldMany] at h
  | t :: ts' =>
      simp only [allOldMany, Bool.and_eq_false_iff] at h
      simp only [walkMany, List.append_assoc]
      rcases h with h | h
      · exact checkGo_walkOne_notOld d c t h s l (walkMany ts' ++ rest)
      · rcases hall : allOld c t with _ | _
        · exact checkGo_walkOne_notOld d c t hall s l (walkMany ts' ++ rest)
        · rw [checkGo_walkOne_clean d c t hall s l (walkMany ts' ++ rest)]
          exact checkGo_walkMany_notOld d c ts' h (s + sumFiles t) l rest

end

theorem nameFlags_eq (hc ht : Bool) (n : Option String) :
    nameFlags hc ht n =
      (hc || decide (n = some cargoName), ht || decide (n = some targetName)) := by
  match n with
  | none => simp [nameFlags]
  | some s =>
      by_cases h1 : s = cargoName
      · subst h1
        simp [nameFlags, cargoName, targetName]
      · by_cases h2 : s = targetName
        · subst h2
          simp [nameFlags, cargoName, targetName]
        · simp [nameFlags, h1, h2]

theorem phase1Go_step (dir : Path) (hc ht : Bool) (l0 : List String) (k0 : Nat)
    (e : REnt) (rest : List REnt) (hft : ∀ n p ioe, e ≠ .ftErr n p ioe)
    (hee : ∀ ioe, e ≠ .entErr ioe) :
    (((entryName e).isSome && (nameFlags hc ht (entryName e)).1 &&
        (nameFlags hc ht (entryName e)).2) = true →
      phase1Go dir hc ht l0 k0 (e :: rest) =
        .st (nameFlags hc ht (entryName e)).1 (nameFlags hc ht (entryName e)).2 l0 k0)
    ∧ (((entryName e).isSome && (nameFlags hc ht (entryName e)).1 &&
        (nameFlags hc ht (entryName e)).2) = false →
      ∃ l1, phase1Go dir hc ht l0 k0 (e :: rest) =
        phase1Go dir (nameFlags hc ht (entryName e)).1 (nameFlags hc ht (entryName e)).2
          l1 (k0 + 1) rest) := by
  match e with
  | .entErr ioe => exact absurd rfl (hee ioe)
  | .ftErr n p ioe => exact absurd rfl (hft n p ioe)
  | .dirEnt n p cr sub =>
      constructor
      · intro h; rw [phase1Go]
        · simp only [entryName] at h ⊢; rw [if_pos h]
        all_goals simp
      · intro h; refine ⟨l0, ?_⟩
        rw [phase1Go]
        · simp only [entryName] at h ⊢
          rw [if_neg (by simp [h])]
        all_goals simp
  | .symRlErr n p ioe =>
      constructor
      · intro h; rw [phase1Go]
        · simp only [entryName] at h ⊢; rw [if_pos h]
        all_goals simp
      · intro h; refine ⟨l0 ++ [followSymlinkErrMsg p ioe.msg], ?_⟩
        rw [phase1Go]
        · simp only [entryName] at h ⊢
          rw [if_neg (by simp [h])]
        all_goals simp
  | .symEnt n p inner mr cr sub =>
      match mr with
      | .error ioe =>
          constructor
          · intro h; rw [phase1Go]
            · simp only [entryName] at h ⊢; rw [if_pos h]
            all_goals simp
          · intro h
            refine ⟨l0 ++ [symlinkMetaErrMsg (resolveLink dir inner) p ioe.msg], ?_⟩
            rw [phase1Go]
            · simp only [entryName] at h ⊢
              rw [if_neg (by simp [h])]
            all_goals simp
      | .ok b =>
          constructor
          · intro h; rw [phase1Go]
            · simp only [entryName] at h ⊢; rw [if_pos h]
            all_goals simp
          · intro h
            refine ⟨l0, ?_⟩
            rw [phase1Go]
            · simp only [entryName] at h ⊢
              rw [if_neg (by simp [h])]
            all_goals simp
  | .otherEnt n p =>
      constructor
      · intro h; rw [phase1Go]
        · simp only [entryName] at h ⊢; rw [if_pos h]
        all_goals simp
      · intro h; refine ⟨l0, ?_⟩
        rw [phase1Go]
        · simp only [entryName] at h ⊢
          rw [if_neg (by simp [h])]
        all_goals simp

theorem phase1Go_flags_cons (dir : Path) (e : REnt) (rest : List REnt) (hc ht : Bool)
    (l0 : List String) (k0 : Nat)
    (hne : ∀ ioe, e ≠ REnt.entErr ioe) (hnf : ∀ n p ioe, e ≠ REnt.ftErr n p ioe)
    (ih : ∀ (hc2 ht2 : Bool) (l2 : List String) (k2 : Nat),
      ∃ l k, phase1Go dir hc2 ht2 l2 k2 rest =
        .st (hc2 || hasName rest cargoName) (ht2 || hasName rest targetName) l k) :
    ∃ l k, phase1Go dir hc ht l0 k0 (e :: rest) =
      .st (hc || hasName (e :: rest) cargoName) (ht || hasName (e :: rest) targetName) l k := by
  have hflag1 : (hc || decide (entryName e = some cargoName) ||
      hasName rest cargoName) = (hc || hasName (e :: rest) cargoName) := by
    simp [hasName, List.any_cons, Bool.or_assoc]
  have hflag2 : (ht || decide (entryName e = some targetName) ||
      hasName rest targetName) = (ht || hasName (e :: rest) targetName) := by
    simp [hasName, List.any_cons, Bool.or_assoc]
  have hstep := phase1Go_step dir hc ht l0 k0 e rest hnf hne
  by_cases hbr : ((entryName e).isSome && (nameFlags hc ht (entryName e)).1 &&
      (nameFlags hc ht (entryName e)).2) = true
  · refine ⟨l0, k0, ?_⟩
    rw [hstep.1 hbr]
    rw [nameFlags_eq] at hbr ⊢
    simp only [Bool.and_eq_true] at hbr
    obtain ⟨⟨_, h1⟩, h2⟩ := hbr
    congr 1
    · rw [← hflag1]
      rcases Bool.or_eq_true_iff.mp h1 with h | h <;> simp [h]
    · rw [← hflag2]
      rcases Bool.or_eq_true_iff.mp h2 with h | h <;> simp [h]
  · obtain ⟨l1, hs⟩ := hstep.2 (by simpa using hbr)
    obtain ⟨l, k, hrec⟩ :=
      ih (nameFlags hc ht (entryName e)).1 (nameFlags hc ht (entryName e)).2 l1 (k0 + 1)
    refine ⟨l, k, ?_⟩
    rw [hs, hrec]
    simp only [nameFlags_eq]
    rw [hflag1, hflag2]

theorem phase1Go_flags (dir : Path) :
    ∀ (entries : List REnt) (hc ht : Bool) (l0 : List String) (k0 : Nat),
      (∀ e ∈ entries, ∀ n p ioe, e ≠ .ftErr n p ioe) →
      ∃ l k, phase1Go dir hc ht l0 k0 entries =
        .st (hc || hasName entries cargoName) (ht || hasName entries targetName) l k := by
  intro entries
  induction entries with
  | nil => intro hc ht l0 k0 _; exact ⟨l0, k0, by simp [phase1Go, hasName]⟩
  | cons e rest ih =>
      intro hc ht l0 k0 hft
      have hrest : ∀ x ∈ rest, ∀ n p ioe, x ≠ REnt.ftErr n p ioe := by
        intro x hx; exact hft x (List.mem_cons_of_mem e hx)
      have hih : ∀ (hc2 ht2 : Bool) (l2 : List String) (k2 : Nat),
          ∃ l k, phase1Go dir hc2 ht2 l2 k2 rest =
            .st (hc2 || hasName rest cargoName) (ht2 || hasName rest targetName) l k :=
        fun hc2 ht2 l2 k2 => ih hc2 ht2 l2 k2 hrest
      match e with
      | .entErr ioe =>
          obtain ⟨l, k, hrec⟩ := hih hc ht (l0 ++ [entryErrMsg ioe.msg]) (k0 + 1)
          refine ⟨l, k, ?_⟩
          rw [phase1Go, hrec]
          simp [hasName, List.any_cons, entryName]
      | .ftErr n p ioe => exact absurd rfl (hft _ (List.mem_cons_self _ _) n p ioe)
      | .dirEnt n p cr sub =>
          exact phase1Go_flags_cons dir _ rest hc ht l0 k0
            (by intro ioe h; cases h) (by intro a b c h; cases h) hih
      | .symRlErr n p ioe =>
          exact phase1Go_flags_cons dir _ rest hc ht l0 k0
            (by intro ioe2 h; cases h) (by intro a b c h; cases h) hih
      | .symEnt n p inner mr cr sub =>
          exact phase1Go_flags_cons dir _ rest hc ht l0 k0
            (by intro ioe h; cases h) (by intro a b c h; cases h) hih
      | .otherEnt n p =>
          exact phase1Go_flags_cons dir _ rest hc ht l0 k0
            (by intro ioe h; cases h) (by intro a b c h; cases h) hih

theorem scanNode_leaf (dir : Path) (entries : List REnt) (tWalk : List WEntry)
    (tSize : Except IoErr Nat) (rm : Except IoErr Unit) (cutoff : Option Int) (del : Bool)
    (stack : List Path) (l1 : List String) (k : Nat)
    (h : phase1Go dir false false [] 0 entries = .st true true l1 k) :
    scanNode dir (.mk (.ok entries) tWalk tSize rm) cutoff del stack =
      (leafEval dir tWalk tSize rm cutoff del l1, stack) := by
  simp [scanNode, h]

theorem leafEval_confined (dir : Path) (tWalk : List WEntry) (tSize : Except IoErr Nat)
    (rm : Except IoErr Unit) (cutoff : Option Int) (del : Bool) (p1logs : List String)
    (b : Nat) (lg : List String) (dd : List Path) (rr : List (Path × Nat))
    (h : leafEval dir tWalk tSize rm cutoff del p1logs = .done b lg dd rr) :
    (∀ q ∈ dd, q = joinPath dir targetName) ∧
      (∀ pr ∈ rr, pr.1 = joinPath dir targetName) := by
  rcases cutoff with _ | c
  · simp only [leafEval] at h
    rcases tSize with e | size
    · cases h
      simp
    · simp only [afterEligible] at h
      cases del
      · simp only [Bool.false_eq_true, if_false] at h
        cases h
        simp
      · simp only [if_true] at h
        rcases rm with e | u
        · cases h
          simp
        · cases h
          simp
  · simp only [leafEval] at h
    rcases hck : check_target_dir_date (joinPath dir targetName) tWalk c with cl | cl | ⟨size, cl⟩
    all_goals rw [hck] at h
    · cases h
    · cases h
      simp
    · simp only [afterEligible] at h
      cases del
      · simp only [Bool.false_eq_true, if_false] at h
        cases h
        simp
      · simp only [if_true] at h
        rcases rm with e | u
        · cases h
          simp
        · cases h
          simp

theorem firstIdx_spec (cn : Path) :
    ∀ (stack : List Path) (i : Nat), firstIdx cn stack = some i →
      i < stack.length ∧ stack.get? i = some cn ∧ ∀ j, j < i → stack.get? j ≠ some cn := by
  intro stack
  induction stack with
  | nil => intro i h; simp [firstIdx] at h
  | cons p rest ih =>
      intro i h
      by_cases hp : p = cn
      · rw [firstIdx, if_pos hp] at h
        cases h
        refine ⟨by simp, by simp [hp], ?_⟩
        intro j hj
        exact absurd hj (by omega)
      · rw [firstIdx, if_neg hp] at h
        rcases hr : firstIdx cn rest with _ | i0
        · rw [hr] at h; cases h
        · rw [hr] at h
          simp only [Option.map_some'] at h
          obtain ⟨h1, h2, h3⟩ := ih i0 hr
          cases h
          refine ⟨by simp; omega, by simpa using h2, ?_⟩
          intro j hj
          cases j with
          | zero => simp [hp]
          | succ j2 =>
              intro hc
              exact h3 j2 (by omega) (by simpa using hc)

theorem firstIdx_mem (cn : Path) :
    ∀ (stack : List Path), cn ∈ stack → ∃ i, firstIdx cn stack = some i := by
  intro stack
  induction stack with
  | nil => intro h; cases h
  | cons p rest ih =>
      intro h
      by_cases hp : p = cn
      · exact ⟨0, by rw [firstIdx, if_pos hp]⟩
      · have hm : cn ∈ rest := by
          rcases List.mem_cons.mp h with h | h
          · exact absurd h.symm hp
          · exact h
        obtain ⟨i, hi⟩ := ih hm
        exact ⟨i + 1, by rw [firstIdx, if_neg hp, hi]; rfl⟩

mutual

theorem scanNode_stack (dir : Path) (nd : DNode) (cutoff : Option Int) (del : Bool)
    (stack : List Path) (b : Nat) (l : List String) (dd : List Path)
    (rr : List (Path × Nat)) (st : List Path)
    (h : scanNode dir nd cutoff del stack = (.done b l dd rr, st)) : st = stack := by
  match nd with
  | .mk listing tWalk tSize rm =>
      rcases listing with ioe | entries
      · simp only [scanNode] at h
        injection h with h1 h2
        exact h2.symm
      · simp only [scanNode] at h
        split at h
        · injection h with h1 h2
          cases h1
        · split at h
          · injection h with h1 h2
            exact h2.symm
          · exact scanCands_stack cutoff del 0 _ [] [] stack _ entries b l dd rr st h

theorem scanCands_stack (cutoff : Option Int) (del : Bool) (acc : Nat) (logs : List String)
    (deleted : List Path) (reported : List (Path × Nat)) (stack : List Path) (k : Nat)
    (es : List REnt) (b : Nat) (l : List String) (dd : List Path) (rr : List (Path × Nat))
    (st : List Path)
    (h : scanCands cutoff del acc logs deleted reported stack k es = (.done b l dd rr, st)) :
    st = stack := by
  match k, es with
  | _, [] =>
      simp only [scanCands] at h
      injection h with h1 h2
      exact h2.symm
  | 0, e :: rest =>
      simp only [scanCands] at h
      injection h with h1 h2
      exact h2.symm
  | k + 1, .entErr ioe :: rest =>
      simp only [scanCands] at h
      exact scanCands_stack cutoff del acc logs deleted reported stack k rest b l dd rr st h
  | k + 1, .ftErr n p ioe :: rest =>
      simp only [scanCands] at h
      exact scanCands_stack cutoff del acc logs deleted reported stack k rest b l dd rr st h
  | k + 1, .symRlErr n p ioe :: rest =>
      simp only [scanCands] at h
      exact scanCands_stack cutoff del acc logs deleted reported stack k rest b l dd rr st h
  | k + 1, .otherEnt n p :: rest =>
      simp only [scanCands] at h
      exact scanCands_stack cutoff del acc logs deleted reported stack k rest b l dd rr st h
  | k + 1, .symEnt n p inner (.error ioe) cr sub :: rest =>
      simp only [scanCands] at h
      exact scanCands_stack cutoff del acc logs deleted reported stack k rest b l dd rr st h
  | k + 1, .symEnt n p inner (.ok false) cr sub :: rest =>
      simp only [scanCands] at h
      exact scanCands_stack cutoff del acc logs deleted reported stack k rest b l dd rr st h
  | k + 1, .dirEnt n p cr sub :: rest =>
      simp only [scanCands] at h
      split at h
      next lg heq =>
        exact scanCands_stack cutoff del acc (logs ++ [lg]) deleted reported stack k rest
          b l dd rr st h
      next lgs heq =>
        exact scanCands_stack cutoff del acc (logs ++ lgs) deleted reported stack k rest
          b l dd rr st h
      next c heq =>
        split at h
        next b2 l2 dd2 rr2 st2 heq2 =>
          have hst2 : st2 = stack ++ [c] :=
            scanNode_stack p sub cutoff del (stack ++ [c]) b2 l2 dd2 rr2 st2 heq2
          have hrest : st = st2.dropLast :=
            scanCands_stack cutoff del (acc + b2) (logs ++ l2) (deleted ++ dd2)
              (reported ++ rr2) st2.dropLast k rest b l dd rr st h
          rw [hrest, hst2, List.dropLast_concat]
        next il st2 heq2 =>
          injection h with h1 h2
          cases h1
        next il st2 heq2 =>
          injection h with h1 h2
          cases h1
  | k + 1, .symEnt n p inner (.ok true) cr sub :: rest =>
      simp only [scanCands] at h
      split at h
      next lg heq =>
        exact scanCands_stack cutoff del acc (logs ++ [lg]) deleted reported stack k rest
          b l dd rr st h
      next lgs heq =>
        exact scanCands_stack cutoff del acc (logs ++ lgs) deleted reported stack k rest
          b l dd rr st h
      next c heq =>
        split at h
        next b2 l2 dd2 rr2 st2 heq2 =>
          have hst2 : st2 = stack ++ [c] :=
            scanNode_stack p sub cutoff del (stack ++ [c]) b2 l2 dd2 rr2 st2 heq2
          have hrest : st = st2.dropLast :=
            scanCands_stack cutoff del (acc + b2) (logs ++ l2) (deleted ++ dd2)
              (reported ++ rr2) st2.dropLast k rest b l dd rr st h
          rw [hrest, hst2, List.dropLast_concat]
        next il st2 heq2 =>
          injection h with h1 h2
          cases h1
        next il st2 heq2 =>
          injection h with h1 h2
          cases h1

end

/-- C1 (amended): for every error-free build-output subtree and cutoff,
`check_target_dir_date` returns `Some(total_bytes)` with `total_bytes` the sum
of the sizes of the regular files of the subtree if and only if no ENTRY OF ANY
KIND (regular file, directory, or symlink entry) has a modification time
strictly after the cutoff; one newer entry of any kind makes the decision
`None`. -/
theorem c1_eligible_iff_every_entry_old (d : Path) (c : Int) (t : FsNode) :
    check_target_dir_date d (walkOne t) c = .someC (sumFiles t) [] ↔ allOld c t = true := by
  constructor
  · intro h
    by_contra hna
    have hfalse : allOld c t = false := by
      cases hv : allOld c t
      · rfl
      · exact absurd hv hna
    have hn := checkGo_walkOne_notOld d c t hfalse 0 [] []
    rw [List.append_nil] at hn
    rw [check_target_dir_date, hn] at h
    cases h
  · intro h
    have hc := checkGo_walkOne_clean d c t h 0 [] []
    rw [List.append_nil] at hc
    rw [check_target_dir_date, hc]
    simp [checkGo]

/-- C1 is false as stated: in this build-output directory every regular file is
at or before the cutoff (`regFilesOld` holds), yet the decision is `None`
rather than `Eligible`, because the code also compares the directory entry's
own modification time (here 10 > 5) against the cutoff. -/
theorem c1_counterexample :
    check_target_dir_date "d" (walkOne (FsNode.dirN 10 [FsNode.file 0 5])) 5 = .noneC []
      ∧ regFilesOld 5 (FsNode.dirN 10 [FsNode.file 0 5]) = true
      ∧ ∀ r l, check_target_dir_date "d" (walkOne (FsNode.dirN 10 [FsNode.file 0 5])) 5 ≠
          .someC r l := by
  refine ⟨rfl, rfl, ?_⟩
  intro r l h
  rw [show check_target_dir_date "d" (walkOne (FsNode.dirN 10 [FsNode.file 0 5])) 5 =
    .noneC [] from rfl] at h
  cases h

/-- C3 is false as stated: this entry's modification time cannot be read, for
an ordinary (non-Unsupported) reason, yet the decision is `Some(7)` — the file
still counts its 7 bytes — and nothing is logged, instead of the claimed
`NotEligible` plus a logged error. -/
theorem c3_counterexample :
    check_target_dir_date "d"
      [Except.ok ⟨"f", Except.ok ⟨Except.error ⟨EKind.other, "mtime unreadable"⟩, true, 7⟩⟩]
      5 = .someC 7 [] := rfl

/-- C3 (amended): an ordinary failure of the metadata read itself
(`entry.metadata()`) makes the decision for the directory `NotEligible`, with
the error printed, and is never fatal; but an ordinary failure of the
modification-time query alone (`metadata.modified()`) is silently ignored and
the entry still contributes its size to the running total. -/
theorem c3_ordinary_metadata_errors (d : Path) (c : Int) :
    (∀ (pre post : List WEntry) (w : WOk) (me : MdErr) (s' : Nat) (l' : List String),
        checkGo d c 0 [] pre = .someC s' l' →
        w.mdRes = .error me →
        (∀ ioe, me.ioeRes = some ioe → ioe.kind ≠ .unsupported) →
        check_target_dir_date d (pre ++ .ok w :: post) c =
          .noneC (l' ++ [metadataErrMsg w.path me.msg d]))
    ∧ (∀ (s : Nat) (l : List String) (w : WOk) (md : Md) (e : IoErr) (rest : List WEntry),
        w.mdRes = .ok md → md.modifiedRes = .error e → e.kind ≠ .unsupported →
        checkGo d c s l (.ok w :: rest) =
          checkGo d c (if md.isFile then s + md.len else s) l rest) := by
  constructor
  · intro pre post w me s' l' hpre hmd hord
    rw [check_target_dir_date, checkGo_append_clean d c pre 0 [] s' l' _ hpre]
    simp only [checkGo, hmd]
    match hioe : me.ioeRes with
    | some ioe => simp [hioe, hord ioe hioe]
    | none => simp [hioe]
  · intro s l w md e rest hmd hmod hord
    simp [checkGo, hmd, hmod, hord]

/-- C3 witness: a concrete clean prefix followed by an entry with an ordinary
metadata-read failure yields `NotEligible` with the error logged. -/
theorem c3_witness :
    check_target_dir_date "d"
      ([Except.ok ⟨"g", Except.ok ⟨Except.ok 0, true, 2⟩⟩] ++
        Except.ok ⟨"f", Except.error ⟨some ⟨EKind.other, "denied"⟩, "denied"⟩⟩ :: []) 5 =
      .noneC ([] ++ [metadataErrMsg "f" "denied" "d"]) :=
  (c3_ordinary_metadata_errors "d" 5).1
    [Except.ok ⟨"g", Except.ok ⟨Except.ok 0, true, 2⟩⟩] [] ⟨"f", _⟩ _ 2 [] rfl rfl
    (by intro ioe h hk; cases h; cases hk)

/-- C10 (confirmed): the Cutoff Evaluator's walk does not follow symbolic
links.  First part: the decision for a build-output directory is unchanged
when the subtree behind one of its symlinks is replaced by any other subtree —
files reachable only through the link contribute nothing and their times are
never examined.  Second part: a directory whose only child is a symlink is
eligible with 0 bytes whenever the directory's and the link's own times are at
or before the cutoff, whatever the link points at — the link entry itself adds
no bytes. -/
theorem c10_symlink_targets_invisible :
    (∀ (d : Path) (c m mt : Int) (pre post : List FsNode) (t1 t2 : FsNode),
        check_target_dir_date d (walkOne (.dirN m (pre ++ .symlinkN mt t1 :: post))) c =
          check_target_dir_date d (walkOne (.dirN m (pre ++ .symlinkN mt t2 :: post))) c)
    ∧ (∀ (d : Path) (c m mt : Int) (t : FsNode), m ≤ c → mt ≤ c →
        check_target_dir_date d (walkOne (.dirN m [.symlinkN mt t])) c = .someC 0 []) := by
  constructor
  · intro d c m mt pre post t1 t2
    have heq : walkOne (FsNode.dirN m (pre ++ .symlinkN mt t1 :: post)) =
        walkOne (FsNode.dirN m (pre ++ .symlinkN mt t2 :: post)) := by
      simp [walkOne, walkMany_append, walkMany]
    rw [heq]
  · intro d c m mt t h1 h2
    have hall : allOld c (FsNode.dirN m [.symlinkN mt t]) = true := by
      simp [allOld, allOldMany, h1, h2]
    have hc := checkGo_walkOne_clean d c _ hall 0 [] []
    rw [List.append_nil] at hc
    rw [check_target_dir_date, hc]
    simp [checkGo, sumFiles, sumFilesMany]

/-- C10 witness: a symlink pointing at a newer large file; the directory is
still eligible with 0 bytes. -/
theorem c10_witness :
    check_target_dir_date "d"
      (walkOne (FsNode.dirN 0 [FsNode.symlinkN 0 (FsNode.file 99 7)])) 5 = .someC 0 [] :=
  c10_symlink_targets_invisible.2 "d" 5 0 0 (FsNode.file 99 7) (by decide) (by decide)

/-- C2 (confirmed): an `ErrorKind::Unsupported` failure of the metadata or
modification-time query halts everything.  First part: once the walk reaches
such an item, `check_target_dir_date` is fatal, with the same outcome whatever
entries would have followed (no partial results).  Second part: a fatal check
makes the whole `scan_for_target_dirs` call of the enclosing project directory
fatal.  Third part: a fatal outcome of a recursive scan aborts the enclosing
candidate loop at any depth, propagating the fatal outcome upward. -/
theorem c2_unsupported_is_fatal :
    (∀ (d : Path) (c : Int) (pre : List WEntry) (w : WEntry) (s' : Nat) (l' : List String),
        checkGo d c 0 [] pre = .someC s' l' → unsupportedItem w = true →
        ∃ logs, ∀ post, check_target_dir_date d (pre ++ w :: post) c = .fatalC logs)
    ∧ (∀ (dir : Path) (entries : List REnt) (tWalk : List WEntry) (tSize : Except IoErr Nat)
        (rm : Except IoErr Unit) (c : Int) (del : Bool) (stack : List Path)
        (l1 : List String) (k : Nat) (fl : List String),
        phase1Go dir false false [] 0 entries = .st true true l1 k →
        check_target_dir_date (joinPath dir targetName) tWalk c = .fatalC fl →
        scanNode dir (.mk (.ok entries) tWalk tSize rm) (some c) del stack =
          (.fatal (l1 ++ fl), stack))
    ∧ (∀ (cutoff : Option Int) (del : Bool) (acc : Nat) (logs : List String)
        (deleted : List Path) (reported : List (Path × Nat)) (stack : List Path) (k : Nat)
        (n : Option String) (p cn : Path) (sub : DNode) (rest : List REnt)
        (il : List String) (st2 : List Path),
        firstIdx cn stack = none →
        scanNode p sub cutoff del (stack ++ [cn]) = (.fatal il, st2) →
        scanCands cutoff del acc logs deleted reported stack (k + 1)
          (.dirEnt n p (.ok cn) sub :: rest) = (.fatal (logs ++ il), st2)) := by
  refine ⟨?_, ?_, ?_⟩
  · intro d c pre w s' l' hpre hw
    match w with
    | .error we => simp [unsupportedItem] at hw
    | .ok wo =>
        match hmd : wo.mdRes with
        | .error me =>
            match hioe : me.ioeRes with
            | some ioe =>
                simp only [unsupportedItem, hmd, hioe, decide_eq_true_eq] at hw
                refine ⟨l' ++ [metadataUnsupportedMsg], fun post => ?_⟩
                rw [check_target_dir_date, checkGo_append_clean d c pre 0 [] s' l' _ hpre]
                simp [checkGo, hmd, hioe, hw]
            | none => simp [unsupportedItem, hmd, hioe] at hw
        | .ok md =>
            match hmod : md.modifiedRes with
            | .error e =>
                simp only [unsupportedItem, hmd, hmod, decide_eq_true_eq] at hw
                refine ⟨l' ++ [modifiedUnsupportedMsg], fun post => ?_⟩
                rw [check_target_dir_date, checkGo_append_clean d c pre 0 [] s' l' _ hpre]
                simp [checkGo, hmd, hmod, hw]
            | .ok t => simp [unsupportedItem, hmd, hmod] at hw
  · intro dir entries tWalk tSize rm c del stack l1 k fl hphase hcheck
    simp [scanNode, hphase, leafEval, hcheck]
  · intro cutoff del acc logs deleted reported stack k n p cn sub rest il st2 hidx hscan
    simp [scanCands, candDecide, hidx, hscan]

/-- C4: the claim is right and the code has a slip.  When no cutoff is
configured and the `fs_extra::dir::get_size` query for `dir/target` fails, the
code executes `println!("")` — the bound error `e` is discarded and the line
logged is the empty string, not the specific cause — while correctly
contributing 0 bytes; the second conjunct shows the enclosing candidate loop
then continues with the sibling directory, which still reports its 42 bytes. -/
theorem c4_size_query_failure_logs_empty_line :
    scanNode "r" (DNode.mk (.ok [REnt.otherEnt (some cargoName) "r/Cargo.toml",
        REnt.dirEnt (some targetName) "r/target" (.ok "r/target")
          (DNode.mk (.ok []) [] (.ok 0) (.ok ()))])
      [] (.error ⟨EKind.other, "permission denied"⟩) (.ok ())) none false [] =
      (.done 0 [""] [] [], [])
    ∧ scanCands none false 0 [] [] [] [] 2
        [REnt.dirEnt none "r" (.ok "r")
          (DNode.mk (.ok [REnt.otherEnt (some cargoName) "r/Cargo.toml",
              REnt.dirEnt (some targetName) "r/target" (.ok "r/target")
                (DNode.mk (.ok []) [] (.ok 0) (.ok ()))])
            [] (.error ⟨EKind.other, "permission denied"⟩) (.ok ())),
         REnt.dirEnt none "s" (.ok "s")
           (DNode.mk (.ok [REnt.otherEnt (some cargoName) "s/Cargo.toml",
               REnt.dirEnt (some targetName) "s/target" (.ok "s/target")
                 (DNode.mk (.ok []) [] (.ok 0) (.ok ()))])
             [] (.ok 42) (.ok ()))] =
      (.done 42 ["", deletingMsg 42 (joinPath "s" targetName)] []
        [(joinPath "s" targetName, 42)], []) := ⟨rfl, rfl⟩

/-- C5 is false as stated: a child entry whose attributes cannot be read at
listing time — here `entry.file_type()` fails with a permission error — makes
the process panic on the `.unwrap()` at line 103, instead of being logged and
skipped. -/
theorem c5_counterexample :
    scanNode "d" (DNode.mk (.ok [REnt.ftErr none "d/x" ⟨EKind.other, "attrs unreadable"⟩])
      [] (.ok 0) (.ok ())) none false [] = (.panicked [], []) := rfl

/-- C5 (amended): a failure to open the directory itself is logged and the
whole subtree contributes zero bytes without aborting, and an error item
yielded by the directory iterator is logged and skipped with the enumeration
continuing; but a failure of the per-entry `file_type()` query panics the
process (the code unwraps it). -/
theorem c5_listing_errors (dir : Path) (cutoff : Option Int) (del : Bool)
    (stack : List Path) :
    (∀ (ioe : IoErr) (tW : List WEntry) (tS : Except IoErr Nat) (rm : Except IoErr Unit),
        scanNode dir (.mk (.error ioe) tW tS rm) cutoff del stack =
          (.done 0 [scanDirErrMsg dir ioe.msg] [] [], stack))
    ∧ (∀ (hc ht : Bool) (l : List String) (k : Nat) (ioe : IoErr) (rest : List REnt),
        phase1Go dir hc ht l k (.entErr ioe :: rest) =
          phase1Go dir hc ht (l ++ [entryErrMsg ioe.msg]) (k + 1) rest)
    ∧ (∀ (hc ht : Bool) (l : List String) (k : Nat) (p : Path) (ioe : IoErr)
        (rest : List REnt),
        phase1Go dir hc ht l k (.ftErr none p ioe :: rest) = .panicSt l) := by
  refine ⟨?_, ?_, ?_⟩
  · intro ioe tW tS rm
    simp [scanNode]
  · intro hc ht l k ioe rest
    rw [phase1Go]
  · intro hc ht l k p ioe rest
    rw [phase1Go]
    · simp [entryName, nameFlags]
    all_goals simp

/-- C6 (confirmed): a directory that directly contains both the manifest file
and the build-output directory (and whose enumeration does not hit the
file-type panic) is classified a project leaf: the scan equals the leaf
evaluation alone, no recursion into any child happens, on `NotEligible` the
subtree returns 0, and everything deleted or reported lies at `dir/target` —
so a nested project inside the leaf is never reported or deleted. -/
theorem c6_project_leaf_no_recursion (dir : Path) (entries : List REnt)
    (tWalk : List WEntry) (tSize : Except IoErr Nat) (rm : Except IoErr Unit)
    (cutoff : Option Int) (del : Bool) (stack : List Path)
    (hC : hasName entries cargoName = true) (hT : hasName entries targetName = true)
    (hft : ∀ e ∈ entries, ∀ n p ioe, e ≠ .ftErr n p ioe) :
    ∃ l k, phase1Go dir false false [] 0 entries = .st true true l k ∧
      scanNode dir (.mk (.ok entries) tWalk tSize rm) cutoff del stack =
        (leafEval dir tWalk tSize rm cutoff del l, stack) ∧
      (∀ b lg dd rr st,
        scanNode dir (.mk (.ok entries) tWalk tSize rm) cutoff del stack =
          (.done b lg dd rr, st) →
        (∀ q ∈ dd, q = joinPath dir targetName) ∧
          (∀ pr ∈ rr, pr.1 = joinPath dir targetName)) ∧
      (∀ c cl, cutoff = some c →
        check_target_dir_date (joinPath dir targetName) tWalk c = .noneC cl →
        scanNode dir (.mk (.ok entries) tWalk tSize rm) cutoff del stack =
          (.done 0 (l ++ cl) [] [], stack)) := by
  obtain ⟨l, k, hp⟩ := phase1Go_flags dir entries false false [] 0 hft
  rw [hC, hT] at hp
  simp only [Bool.false_or] at hp
  refine ⟨l, k, hp, scanNode_leaf dir entries tWalk tSize rm cutoff del stack l k hp,
    ?_, ?_⟩
  · intro b lg dd rr st hs
    rw [scanNode_leaf dir entries tWalk tSize rm cutoff del stack l k hp] at hs
    injection hs with hs1 hs2
    exact leafEval_confined dir tWalk tSize rm cutoff del l b lg dd rr hs1
  · intro c cl hcut hck
    subst hcut
    rw [scanNode_leaf dir entries tWalk tSize rm (some c) del stack l k hp]
    simp only [leafEval, hck]

/-- C6 witness: a project leaf whose target walk contains a too-new file; with
deletion authorized the scan still returns 0, deletes nothing and reports
nothing — in particular the nested project below `r/target2` is invisible. -/
theorem c6_witness :
    scanNode "r" (DNode.mk (.ok [REnt.otherEnt (some cargoName) "r/Cargo.toml",
        REnt.dirEnt (some targetName) "r/target" (.ok "ct")
          (DNode.mk (.ok [REnt.otherEnt (some cargoName) "n/Cargo.toml",
              REnt.dirEnt (some targetName) "n/target" (.ok "nt")
                (DNode.mk (.ok []) [] (.ok 0) (.ok ()))])
            [] (.ok 7) (.ok ()))])
      [Except.ok ⟨"", Except.ok ⟨Except.ok 10, true, 5⟩⟩] (.ok 0) (.ok ())) (some 5) true [] =
      (.done 0 ([] ++ []) [] [], []) := by
  obtain ⟨l, k, h1, h2, h3, h4⟩ :=
    c6_project_leaf_no_recursion "r"
      [REnt.otherEnt (some cargoName) "r/Cargo.toml",
        REnt.dirEnt (some targetName) "r/target" (.ok "ct")
          (DNode.mk (.ok [REnt.otherEnt (some cargoName) "n/Cargo.toml",
              REnt.dirEnt (some targetName) "n/target" (.ok "nt")
                (DNode.mk (.ok []) [] (.ok 0) (.ok ()))])
            [] (.ok 7) (.ok ()))]
      [Except.ok ⟨"", Except.ok ⟨Except.ok 10, true, 5⟩⟩] (.ok 0) (.ok ()) (some 5) true []
      (by decide) (by decide)
      (by
        intro e he n p ioe
        rcases List.mem_cons.mp he with h | h
        · subst h; intro hx; cases hx
        · rcases List.mem_cons.mp h with h2 | h2
          · subst h2; intro hx; cases hx
          · simp at h2)
  have hval : P1.st true true [] 1 = P1.st true true l k := by
    rw [← h1]
    rfl
  injection hval with e1 e2 e3 e4
  subst e3
  exact h4 5 [] rfl rfl

/-- C7 (confirmed): a recursion candidate whose canonicalized path already
occurs on the visited stack is not descended into: the scanner prints the
warning plus the chain from the FIRST occurrence of that path down the stack,
followed by the repeated path, and processing continues with the remaining
candidates, the skipped candidate contributing nothing — whatever subtree lies
behind it (both for a subdirectory candidate and for a symlink candidate). -/
theorem c7_cycle_skipped (cutoff : Option Int) (del : Bool) (acc : Nat)
    (logs : List String) (deleted : List Path) (reported : List (Path × Nat))
    (stack : List Path) (k : Nat) (rest : List REnt) (cn : Path)
    (h : cn ∈ stack) :
    ∃ i, firstIdx cn stack = some i ∧ i < stack.length ∧ stack.get? i = some cn ∧
      (∀ j, j < i → stack.get? j ≠ some cn) ∧
      (∀ (n : Option String) (p : Path) (sub : DNode),
        scanCands cutoff del acc logs deleted reported stack (k + 1)
            (.dirEnt n p (.ok cn) sub :: rest) =
          scanCands cutoff del acc
            (logs ++ ([circularWarnMsg] ++ (stack.drop i).map chainLine ++ [chainLine cn]))
            deleted reported stack k rest)
      ∧ (∀ (n : Option String) (p inner : Path) (sub : DNode),
        scanCands cutoff del acc logs deleted reported stack (k + 1)
            (.symEnt n p inner (.ok true) (.ok cn) sub :: rest) =
          scanCands cutoff del acc
            (logs ++ ([circularWarnMsg] ++ (stack.drop i).map chainLine ++ [chainLine cn]))
            deleted reported stack k rest) := by
  obtain ⟨i, hi⟩ := firstIdx_mem cn stack h
  obtain ⟨h1, h2, h3⟩ := firstIdx_spec cn stack i hi
  have hcd : ∀ p, candDecide stack p (.ok cn) =
      .skipCycle ([circularWarnMsg] ++ (stack.drop i).map chainLine ++ [chainLine cn]) := by
    intro p
    rw [candDecide, hi]
  refine ⟨i, hi, h1, h2, h3, ?_, ?_⟩
  · intro n p sub
    simp only [scanCands]
    rw [hcd p]
  · intro n p inner sub
    simp only [scanCands]
    rw [hcd p]

/-- C7 witness: the canonical path "a" is already on the stack; the candidate
is skipped with the chain logged, and the loop then finishes normally. -/
theorem c7_witness :
    scanCands none false 0 [] [] [] ["s", "a"] 1
        [REnt.dirEnt none "p" (.ok "a") (DNode.mk (.ok []) [] (.ok 0) (.ok ()))] =
      scanCands none false 0
        ([] ++ ([circularWarnMsg] ++ ((["s", "a"].drop 1).map chainLine) ++ [chainLine "a"]))
        [] [] ["s", "a"] 0 [] := by
  obtain ⟨i, hi, h1, h2, h3, h4, h5⟩ :=
    c7_cycle_skipped none false 0 [] [] [] ["s", "a"] 0 [] "a" (by simp)
  have hieq : i = 1 := by
    have hv : firstIdx "a" ["s", "a"] = some 1 := rfl
    rw [hv] at hi
    exact (Option.some.inj hi).symm
  subst hieq
  exact h4 none "p" (DNode.mk (.ok []) [] (.ok 0) (.ok ()))

/-- C8 (confirmed): for a project directory whose whole target subtree is at or
before the cutoff, the scan with deletion authorized removes `dir/target` and
returns its pre-deletion aggregate size, while the dry run returns exactly the
same size and deletes nothing — the filesystem is untouched, so a repeated dry
run reports the same size. -/
theorem c8_eligible_leaf_delete_vs_dry_run (dir : Path) (entries : List REnt)
    (t : FsNode) (tSize : Except IoErr Nat) (c : Int) (stack : List Path)
    (l1 : List String) (k : Nat)
    (hphase : phase1Go dir false false [] 0 entries = .st true true l1 k)
    (hold : allOld c t = true) :
    scanNode dir (.mk (.ok entries) (walkOne t) tSize (.ok ())) (some c) true stack =
      (.done (sumFiles t)
        (l1 ++ [deletingMsg (sumFiles t) (joinPath dir targetName)])
        [joinPath dir targetName] [(joinPath dir targetName, sumFiles t)], stack)
    ∧ scanNode dir (.mk (.ok entries) (walkOne t) tSize (.ok ())) (some c) false stack =
      (.done (sumFiles t)
        (l1 ++ [deletingMsg (sumFiles t) (joinPath dir targetName)])
        [] [(joinPath dir targetName, sumFiles t)], stack) := by
  have hck : check_target_dir_date (joinPath dir targetName) (walkOne t) c =
      .someC (sumFiles t) [] := by
    have hc := checkGo_walkOne_clean (joinPath dir targetName) c t hold 0 [] []
    rw [List.append_nil] at hc
    rw [check_target_dir_date, hc]
    simp [checkGo]
  constructor
  · rw [scanNode_leaf dir entries (walkOne t) tSize (.ok ()) (some c) true stack l1 k hphase]
    simp only [leafEval, hck, afterEligible, if_true]
    simp
  · rw [scanNode_leaf dir entries (walkOne t) tSize (.ok ()) (some c) false stack l1 k hphase]
    simp only [leafEval, hck, afterEligible]
    simp

/-- C8 witness: a concrete eligible project directory, scanned both ways. -/
theorem c8_witness :
    scanNode "r" (DNode.mk (.ok [REnt.otherEnt (some cargoName) "r/Cargo.toml",
        REnt.dirEnt (some targetName) "r/target" (.ok "ct")
          (DNode.mk (.ok []) [] (.ok 0) (.ok ()))])
      (walkOne (FsNode.file 0 5)) (.ok 0) (.ok ())) (some 5) true [] =
      (.done (sumFiles (FsNode.file 0 5))
        ([] ++ [deletingMsg (sumFiles (FsNode.file 0 5)) (joinPath "r" targetName)])
        [joinPath "r" targetName] [(joinPath "r" targetName, sumFiles (FsNode.file 0 5))], [])
    ∧ scanNode "r" (DNode.mk (.ok [REnt.otherEnt (some cargoName) "r/Cargo.toml",
        REnt.dirEnt (some targetName) "r/target" (.ok "ct")
          (DNode.mk (.ok []) [] (.ok 0) (.ok ()))])
      (walkOne (FsNode.file 0 5)) (.ok 0) (.ok ())) (some 5) false [] =
      (.done (sumFiles (FsNode.file 0 5))
        ([] ++ [deletingMsg (sumFiles (FsNode.file 0 5)) (joinPath "r" targetName)])
        [] [(joinPath "r" targetName, sumFiles (FsNode.file 0 5))], []) :=
  c8_eligible_leaf_delete_vs_dry_run "r" _ (FsNode.file 0 5) (.ok 0) 5 [] [] 1 rfl (by decide)

/-- C9 (confirmed): every `scan_for_target_dirs` invocation that returns
normally restores the visited stack to exactly its contents at entry: each
push of a canonicalized candidate path is paired with a pop on every return
path, so the stack only ever holds the ancestors of the active call. -/
theorem c9_visited_stack_restored (dir : Path) (nd : DNode) (cutoff : Option Int)
    (del : Bool) (stack : List Path) (b : Nat) (l : List String) (dd : List Path)
    (rr : List (Path × Nat)) (st : List Path)
    (h : scanNode dir nd cutoff del stack = (.done b l dd rr, st)) : st = stack :=
  scanNode_stack dir nd cutoff del stack b l dd rr st h

/-- C9 witness: a scan that actually descends one level (one push and one pop)
finishes with the stack it started with. -/
theorem c9_witness :
    scanNode "r" (DNode.mk (.ok [REnt.dirEnt none "r/a" (.ok "ca")
        (DNode.mk (.ok []) [] (.ok 0) (.ok ()))]) [] (.ok 0) (.ok ())) none false ["r"] =
      (.done 0 [] [] [], ["r"]) ∧ (["r"] : List Path) = ["r"] :=
  ⟨rfl, c9_visited_stack_restored "r"
    (DNode.mk (.ok [REnt.dirEnt none "r/a" (.ok "ca")
        (DNode.mk (.ok []) [] (.ok 0) (.ok ()))]) [] (.ok 0) (.ok ()))
    none false ["r"] 0 [] [] [] ["r"] rfl⟩

/-- C2 witness: a project directory whose target walk hits an Unsupported
modification-time failure; the scan of that directory is fatal. -/
theorem c2_witness :
    scanNode "r"
      (DNode.mk (.ok [REnt.otherEnt (some cargoName) "r/Cargo.toml",
          REnt.dirEnt (some targetName) "r/target" (.ok "r/target")
            (DNode.mk (.ok []) [] (.ok 0) (.ok ()))])
        [Except.ok ⟨"f", Except.ok ⟨Except.error ⟨EKind.unsupported, "u"⟩, true, 3⟩⟩]
        (.ok 0) (.ok ())) (some 5) false [] =
      (.fatal ([] ++ [modifiedUnsupportedMsg]), []) :=
  c2_unsupported_is_fatal.2.1 "r" _ _ _ _ 5 false [] [] 1 [modifiedUnsupportedMsg] rfl rfl

end Cleaner
